import Mathlib

/-!
Verification of the account-tracker dashboard engine
(`src/static/js/app.js`): the filter/sort/render pipeline
(`renderAccounts`), renewal-window classification
(`renderAccountCard`, `openAccountDetail`), day-distance arithmetic
(`daysSince`, `daysUntil`), progress computation (`updateProgress`)
and the API error path (`API.request` plus the mutation handlers).

JavaScript values are embedded as follows: numbers used as counts are
`Nat`, numbers used in signed arithmetic are `Int`, strings are
`String`, nullable fields are `Option`, and `Array.prototype.sort`
(stable per the ECMAScript specification) is `List.mergeSort` on the
relation `comparator a b ≤ 0`.  `String.prototype.localeCompare` is
modelled after the default ICU/Unicode collation used by every major
engine: a primary pass that compares case-folded characters, then, on a
primary tie, a tertiary pass on case weights with lowercase ordered
before uppercase (so strings differing only in case compare unequal).
-/

namespace AccountTracker

/-- Comparison of two naturals as an `Ordering`. -/
def cmpNat (a b : Nat) : Ordering :=
  if a < b then .lt else if b < a then .gt else .eq

/-- Lexicographic comparison of lists of naturals, shorter prefix first. -/
def lexCmp : List Nat → List Nat → Ordering
  | [], [] => .eq
  | [], _ :: _ => .lt
  | _ :: _, [] => .gt
  | a :: as, b :: bs =>
    match cmpNat a b with
    | .eq => lexCmp as bs
    | .lt => .lt
    | .gt => .gt

theorem cmpNat_eq_iff {a b : Nat} : cmpNat a b = .eq ↔ a = b := by
  unfold cmpNat; split <;> [skip; split] <;> simp <;> omega

theorem cmpNat_lt_iff {a b : Nat} : cmpNat a b = .lt ↔ a < b := by
  unfold cmpNat; split <;> [skip; split] <;> simp <;> omega

theorem cmpNat_gt_iff {a b : Nat} : cmpNat a b = .gt ↔ b < a := by
  unfold cmpNat; split <;> [skip; split] <;> simp <;> omega

theorem lexCmp_eq_iff : ∀ {xs ys : List Nat}, lexCmp xs ys = .eq ↔ xs = ys
  | [], [] => by simp [lexCmp]
  | [], _ :: _ => by simp [lexCmp]
  | _ :: _, [] => by simp [lexCmp]
  | a :: as, b :: bs => by
    rw [lexCmp]
    rcases h : cmpNat a b with _ | _ | _ <;> simp only []
    · simp [cmpNat_lt_iff.mp h, Nat.ne_of_lt (cmpNat_lt_iff.mp h)]
    · simp [cmpNat_eq_iff.mp h, lexCmp_eq_iff]
    · have := cmpNat_gt_iff.mp h
      simp; intro hab; omega

theorem lexCmp_swap : ∀ (xs ys : List Nat), (lexCmp xs ys).swap = lexCmp ys xs
  | [], [] => rfl
  | [], _ :: _ => rfl
  | _ :: _, [] => rfl
  | a :: as, b :: bs => by
    rw [lexCmp, lexCmp]
    rcases h : cmpNat a b with _ | _ | _
    · have := cmpNat_lt_iff.mp h
      rw [cmpNat_gt_iff.mpr this]; rfl
    · rw [cmpNat_eq_iff.mpr (cmpNat_eq_iff.mp h).symm]
      exact lexCmp_swap as bs
    · have := cmpNat_gt_iff.mp h
      rw [cmpNat_lt_iff.mpr this]; rfl

theorem lexCmp_lt_trans :
    ∀ {xs ys zs : List Nat},
      lexCmp xs ys = .lt → lexCmp ys zs = .lt → lexCmp xs zs = .lt
  | [], [], _ :: _, _, _ => rfl
  | [], _ :: _, _ :: _, _, _ => rfl
  | a :: as, b :: bs, c :: cs, h1, h2 => by
    rw [lexCmp] at h1 h2 ⊢
    rcases hab : cmpNat a b with _ | _ | _ <;> rw [hab] at h1 <;>
      rcases hbc : cmpNat b c with _ | _ | _ <;> rw [hbc] at h2 <;>
      try simp_all
    · rw [cmpNat_lt_iff.mpr
        (Nat.lt_trans (cmpNat_lt_iff.mp hab) (cmpNat_lt_iff.mp hbc))]
    · obtain rfl := cmpNat_eq_iff.mp hbc
      rw [hab]
    · obtain rfl := cmpNat_eq_iff.mp hab
      rw [hbc]
    · obtain rfl := cmpNat_eq_iff.mp hab
      obtain rfl := cmpNat_eq_iff.mp hbc
      rw [cmpNat_eq_iff.mpr rfl]
      exact lexCmp_lt_trans h1 h2

/-- Primary collation key of a string: its characters case-folded, as
code points.  This is the level at which the default ICU collation
(used by `String.prototype.localeCompare` in every major JS engine)
ignores letter case. -/
def primaryKey (s : String) : List Nat :=
  s.data.map (fun c => c.toLower.toNat)

/-- Tertiary (case) collation key of a string: one weight per
character, with lowercase (weight 0) ordered before uppercase
(weight 1), as in the default ICU collation. -/
def caseKey (s : String) : List Nat :=
  s.data.map (fun c => if c.isUpper then 1 else 0)

/-- Model of `String.prototype.localeCompare` as an `Ordering`:
compare primary (case-folded) keys first and break primary ties with
the case keys.  Strings that differ only in letter case therefore
compare unequal, while the relative order of strings with distinct
case-folded forms ignores case. -/
def localeCmp (s t : String) : Ordering :=
  match lexCmp (primaryKey s) (primaryKey t) with
  | .eq => lexCmp (caseKey s) (caseKey t)
  | .lt => .lt
  | .gt => .gt

/-- Model of `String.prototype.localeCompare` with the JS return-value
convention: negative, zero or positive. -/
def localeCompare (s t : String) : Int :=
  match localeCmp s t with
  | .lt => -1
  | .eq => 0
  | .gt => 1

theorem localeCmp_eq_iff {s t : String} :
    localeCmp s t = .eq ↔ primaryKey s = primaryKey t ∧ caseKey s = caseKey t := by
  unfold localeCmp
  rcases h : lexCmp (primaryKey s) (primaryKey t) with _ | _ | _ <;>
    simp only []
  · constructor
    · intro hc; exact absurd hc (by simp)
    · rintro ⟨hp, _⟩; rw [lexCmp_eq_iff.mpr hp] at h; exact absurd h (by simp)
  · simp only [lexCmp_eq_iff] at h
    simp [h, lexCmp_eq_iff]
  · constructor
    · intro hc; exact absurd hc (by simp)
    · rintro ⟨hp, _⟩; rw [lexCmp_eq_iff.mpr hp] at h; exact absurd h (by simp)

theorem localeCmp_swap (s t : String) : (localeCmp s t).swap = localeCmp t s := by
  unfold localeCmp
  rw [← lexCmp_swap (primaryKey s) (primaryKey t)]
  rcases h : lexCmp (primaryKey s) (primaryKey t) with _ | _ | _
  · rfl
  · rw [← lexCmp_swap (caseKey s) (caseKey t)]
    rcases lexCmp (caseKey s) (caseKey t) with _ | _ | _ <;> rfl
  · rfl

theorem localeCmp_congr_right {t u : String} (h : localeCmp t u = .eq) (s : String) :
    localeCmp s u = localeCmp s t := by
  obtain ⟨hp, hc⟩ := localeCmp_eq_iff.mp h
  unfold localeCmp
  rw [← hp, ← hc]

theorem localeCmp_congr_left {s t : String} (h : localeCmp s t = .eq) (u : String) :
    localeCmp s u = localeCmp t u := by
  obtain ⟨hp, hc⟩ := localeCmp_eq_iff.mp h
  unfold localeCmp
  rw [hp, hc]

theorem localeCmp_lt_trans {s t u : String} :
    localeCmp s t = .lt → localeCmp t u = .lt → localeCmp s u = .lt := by
  intro h1 h2
  unfold localeCmp at h1 h2 ⊢
  rcases hst : lexCmp (primaryKey s) (primaryKey t) with _ | _ | _ <;> rw [hst] at h1
  · rcases htu : lexCmp (primaryKey t) (primaryKey u) with _ | _ | _ <;> rw [htu] at h2
    · rw [lexCmp_lt_trans hst htu]
    · rw [← lexCmp_eq_iff.mp htu, hst]
    · simp at h2
  · rcases htu : lexCmp (primaryKey t) (primaryKey u) with _ | _ | _ <;> rw [htu] at h2
    · rw [lexCmp_eq_iff.mp hst, htu]
    · rw [lexCmp_eq_iff.mp hst, lexCmp_eq_iff.mp htu, lexCmp_eq_iff.mpr rfl]
      exact lexCmp_lt_trans h1 h2
    · simp at h2
  · simp at h1

theorem localeCmp_self (s : String) : localeCmp s s = .eq :=
  localeCmp_eq_iff.mpr ⟨rfl, rfl⟩

theorem localeCompare_nonpos_iff {s t : String} :
    localeCompare s t ≤ 0 ↔ localeCmp s t ≠ .gt := by
  unfold localeCompare
  rcases localeCmp s t with _ | _ | _ <;> simp

theorem localeCompare_eq_zero_iff {s t : String} :
    localeCompare s t = 0 ↔ localeCmp s t = .eq := by
  unfold localeCompare
  rcases localeCmp s t with _ | _ | _ <;> simp

theorem localeCmp_gt_iff_lt {s t : String} :
    localeCmp s t = .gt ↔ localeCmp t s = .lt := by
  rw [← localeCmp_swap s t]
  rcases localeCmp s t with _ | _ | _ <;> simp [Ordering.swap]

theorem localeCompare_le_total (s t : String) :
    localeCompare s t ≤ 0 ∨ localeCompare t s ≤ 0 := by
  rw [localeCompare_nonpos_iff, localeCompare_nonpos_iff]
  by_cases h : localeCmp s t = .gt
  · right
    rw [localeCmp_gt_iff_lt] at h
    simp [h]
  · left; exact h

theorem localeCmp_ne_gt_trans {s t u : String}
    (h1 : localeCmp s t ≠ .gt) (h2 : localeCmp t u ≠ .gt) :
    localeCmp s u ≠ .gt := by
  rcases hst : localeCmp s t with _ | _ | _
  · rcases htu : localeCmp t u with _ | _ | _
    · simp [localeCmp_lt_trans hst htu]
    · rw [localeCmp_congr_right htu s, hst]; simp
    · exact absurd htu h2
  · rw [localeCmp_congr_left hst u]; exact h2
  · exact absurd hst h1

theorem localeCompare_le_trans {s t u : String} :
    localeCompare s t ≤ 0 → localeCompare t u ≤ 0 → localeCompare s u ≤ 0 := by
  rw [localeCompare_nonpos_iff, localeCompare_nonpos_iff, localeCompare_nonpos_iff]
  exact localeCmp_ne_gt_trans

/-- Account record, restricted to the fields the verified functions
read (`app.js` renders further fields but the filter/sort/render logic
only touches these).  Counts are `Nat`, money is `Int`, nullable
fields are `Option`. -/
structure Account where
  name : String
  touched_today : Bool
  open_tasks : Nat
  renewal_date : Option String
  pipeline_value : Option Int
deriving DecidableEq

/-- Filter selector, the possible values of `State.filter`
(`app.js` lines 334-338). -/
inductive AFilter
  | all
  | touched
  | untouched
deriving DecidableEq

/-- Sort selector, the possible values of `State.sortBy`
(`app.js` lines 341-356). -/
inductive SortKey
  | name
  | touched
  | tasks
  | renewal
  | pipeline
deriving DecidableEq

/-- Comparator of the `name` sort:
`a.name.localeCompare(b.name)` (`app.js` line 342). -/
def nameCmp (a b : Account) : Int :=
  localeCompare a.name b.name

/-- Comparator of the `touched` sort:
`(a.touched_today === b.touched_today) ? 0 : a.touched_today ? 1 : -1`
(`app.js` line 344). -/
def touchedCmp (a b : Account) : Int :=
  if a.touched_today = b.touched_today then 0
  else if a.touched_today then 1 else -1

/-- Comparator of the `tasks` sort: `b.open_tasks - a.open_tasks`
(`app.js` line 346). -/
def tasksCmp (a b : Account) : Int :=
  (b.open_tasks : Int) - (a.open_tasks : Int)

/-- Comparator of the `renewal` sort (`app.js` lines 348-353):
both dates missing compare equal, a missing date sorts after a present
one, and two present dates compare by `localeCompare`. -/
def renewalCmp (a b : Account) : Int :=
  match a.renewal_date, b.renewal_date with
  | none, none => 0
  | none, some _ => 1
  | some _, none => -1
  | some da, some db => localeCompare da db

/-- Comparator of the `pipeline` sort:
`(b.pipeline_value || 0) - (a.pipeline_value || 0)` (`app.js` line 355).
A missing value is coerced to 0, exactly what `|| 0` does. -/
def pipelineCmp (a b : Account) : Int :=
  b.pipeline_value.getD 0 - a.pipeline_value.getD 0

/-- Comparator attached to each sort key by the if-chain of
`renderAccounts` (`app.js` lines 341-356). -/
def sortComparator : SortKey → Account → Account → Int
  | .name => nameCmp
  | .touched => touchedCmp
  | .tasks => tasksCmp
  | .renewal => renewalCmp
  | .pipeline => pipelineCmp

/-- Relation under which a JS stable sort with comparator `cmp` keeps
`a` before `b`: the comparator is nonpositive on the pair. -/
def cmpLe (cmp : Account → Account → Int) (a b : Account) : Bool :=
  decide (cmp a b ≤ 0)

/-- Filter step of `renderAccounts` (`app.js` lines 334-338). -/
def applyFilter : AFilter → List Account → List Account
  | .all, l => l
  | .touched, l => l.filter (fun a => a.touched_today)
  | .untouched, l => l.filter (fun a => !a.touched_today)

/-- Sort step of `renderAccounts` (`app.js` lines 341-356):
`Array.prototype.sort` is stable (ES2019), modelled by `List.mergeSort`
on the nonpositive-comparator relation. -/
def applySort (k : SortKey) (l : List Account) : List Account :=
  l.mergeSort (cmpLe (sortComparator k))

/-- DOM outcome of `renderAccounts`: the cards written into the
accounts grid and whether the all-done element is shown
(`app.js` lines 358-364). -/
structure RenderOut where
  gridCards : List Account
  allDoneShown : Bool
deriving DecidableEq

/-- Model of `renderAccounts` (`app.js` lines 328-365): copy the state
accounts, filter, sort, then either show the all-done terminal state
(with an emptied grid) or render the cards. -/
def renderAccounts (f : AFilter) (k : SortKey) (stAccounts : List Account) : RenderOut :=
  if f = .untouched ∧ (applySort k (applyFilter f stAccounts)).length = 0 ∧
      stAccounts.length > 0 then
    { gridCards := [], allDoneShown := true }
  else
    { gridCards := applySort k (applyFilter f stAccounts), allDoneShown := false }

/-- Model of `updateProgress` (`app.js` lines 367-375): the touched
percentage, a rational standing in for the JS number.  The division is
guarded by `total > 0`. -/
def updateProgress (accounts : List Account) : ℚ :=
  if accounts.length > 0 then
    ((accounts.filter (fun a => a.touched_today)).length : ℚ) / (accounts.length : ℚ) * 100
  else 0

/-- Model of `daysSince` (`app.js` lines 108-115).  The argument is
the millisecond timestamp of the parsed date at local midnight (the JS
builds `new Date(dateStr + 'T00:00:00')`), `todayMidnight` the
timestamp of today at local midnight; the JS computes
`Math.floor((today - date) / 86400000)`, and `Math.floor` of a real
division is integer floor division `Int.fdiv`. -/
def daysSince (dateMidnight : Option Int) (todayMidnight : Int) : Option Int :=
  match dateMidnight with
  | none => none
  | some d => some ((todayMidnight - d).fdiv 86400000)

/-- Model of `daysUntil` (`app.js` lines 117-124), the mirror image of
`daysSince`: `Math.floor((date - today) / 86400000)`. -/
def daysUntil (dateMidnight : Option Int) (todayMidnight : Int) : Option Int :=
  match dateMidnight with
  | none => none
  | some d => some ((d - todayMidnight).fdiv 86400000)

/-- Renewal classification bands. -/
inductive RenewalClass
  | overdue
  | urgent
  | warning
  | safe
deriving DecidableEq

/-- Renewal badge classification of `renderAccountCard`
(`app.js` lines 236-249): the if/else-if chain on `daysLeft`. -/
def cardRenewalClass (daysLeft : Int) : RenewalClass :=
  if daysLeft < 0 then .overdue
  else if daysLeft ≤ 30 then .urgent
  else if daysLeft ≤ 60 then .warning
  else .safe

/-- Renewal class of `openAccountDetail` (`app.js` lines 393-398):
`renewalClass` starts as safe and the if/else-if chain overrides it. -/
def detailRenewalClass (daysLeft : Int) : RenewalClass :=
  if daysLeft < 0 then .overdue
  else if daysLeft ≤ 30 then .urgent
  else if daysLeft ≤ 60 then .warning
  else .safe

/-- HTTP response as `API.request` observes it (`app.js` lines 8-23):
the `ok` flag, and the outcome of reading the body.  `parsedBody =
none` means `response.json()` rejected (the `.catch` then substitutes
the object with error text Request failed); `some none` means the body
parsed but carries no `error` string; `some (some e)` means it parsed
with `error` equal to `e`. -/
structure ApiResponse where
  ok : Bool
  parsedBody : Option (Option String)
deriving DecidableEq

/-- Message thrown by `API.request` on a non-ok response
(`app.js` lines 17-20): `error.error || 'Request failed'`.  An absent
body, a body without the field, and an empty-string field are all
falsy in JS and fall back to the generic message. -/
def requestFailureMessage (parsedBody : Option (Option String)) : String :=
  match parsedBody with
  | none => "Request failed"
  | some none => "Request failed"
  | some (some e) => if e = "" then "Request failed" else e

/-- Model of `API.request` (`app.js` lines 8-23): a 2xx response
yields its payload, a non-2xx response throws the extracted message. -/
def apiRequest (r : ApiResponse) (payload : α) : Except String α :=
  if r.ok then .ok payload else .error (requestFailureMessage r.parsedBody)

/-- Toast produced by the catch branch shared by the mutation handlers
(`handleActivitySubmit`, `app.js` lines 618-620 and its siblings):
on success the success toast, on failure the string Failed: plus the
thrown message, and nothing is retried. -/
def mutationToast (successMsg : String) : Except String Unit → String
  | .ok _ => successMsg
  | .error e => "Failed: " ++ e

/-- Heap of JS arrays of accounts, for the aliasing argument about
`renderAccounts`: references are indices, `State.accounts` lives at
one of them. -/
structure Heap where
  arrays : List (List Account)
deriving DecidableEq

/-- Allocation of a fresh array holding `v`, returning the new heap
and the new reference. -/
def Heap.alloc (h : Heap) (v : List Account) : Heap × Nat :=
  ({ arrays := h.arrays ++ [v] }, h.arrays.length)

/-- Array read; a dangling reference reads as the empty array. -/
def Heap.readArr (h : Heap) (r : Nat) : List Account :=
  (h.arrays[r]?).getD []

/-- In-place array overwrite, as `Array.prototype.sort` performs. -/
def Heap.writeArr (h : Heap) (r : Nat) (v : List Account) : Heap :=
  { arrays := h.arrays.set r v }

/-- Heap-level model of `renderAccounts` (`app.js` lines 328-365),
keeping the JS aliasing explicit: `[...State.accounts]` allocates a
fresh array, `filter` allocates another, and `sort` mutates in place
the array the local variable points to.  Returns the final heap and
the rendered outcome. -/
def renderAccountsHeap (h : Heap) (stRef : Nat) (f : AFilter) (k : SortKey) :
    Heap × RenderOut :=
  let p1 := h.alloc (h.readArr stRef)
  let p2 :=
    match f with
    | .all => p1
    | .touched => p1.1.alloc ((p1.1.readArr p1.2).filter (fun a => a.touched_today))
    | .untouched => p1.1.alloc ((p1.1.readArr p1.2).filter (fun a => !a.touched_today))
  let h3 := p2.1.writeArr p2.2 (applySort k (p2.1.readArr p2.2))
  let accounts := h3.readArr p2.2
  (h3,
    if f = .untouched ∧ accounts.length = 0 ∧ (h3.readArr stRef).length > 0 then
      { gridCards := [], allDoneShown := true }
    else
      { gridCards := accounts, allDoneShown := false })

theorem cmpLe_name_total (a b : Account) : cmpLe nameCmp a b || cmpLe nameCmp b a := by
  simp only [cmpLe, nameCmp, Bool.or_eq_true, decide_eq_true_eq]
  exact localeCompare_le_total a.name b.name

theorem cmpLe_name_trans (a b c : Account) :
    cmpLe nameCmp a b → cmpLe nameCmp b c → cmpLe nameCmp a c := by
  simp only [cmpLe, nameCmp, decide_eq_true_eq]
  exact localeCompare_le_trans

theorem cmpLe_touched_total (a b : Account) :
    cmpLe touchedCmp a b || cmpLe touchedCmp b a := by
  cases ha : a.touched_today <;> cases hb : b.touched_today <;>
    simp [cmpLe, touchedCmp, ha, hb]

theorem cmpLe_touched_trans (a b c : Account) :
    cmpLe touchedCmp a b → cmpLe touchedCmp b c → cmpLe touchedCmp a c := by
  cases ha : a.touched_today <;> cases hb : b.touched_today <;>
    cases hc : c.touched_today <;> simp [cmpLe, touchedCmp, ha, hb, hc]

theorem cmpLe_tasks_total (a b : Account) : cmpLe tasksCmp a b || cmpLe tasksCmp b a := by
  simp [cmpLe, tasksCmp]
  omega

theorem cmpLe_tasks_trans (a b c : Account) :
    cmpLe tasksCmp a b → cmpLe tasksCmp b c → cmpLe tasksCmp a c := by
  simp [cmpLe, tasksCmp]
  omega

theorem cmpLe_renewal_total (a b : Account) :
    cmpLe renewalCmp a b || cmpLe renewalCmp b a := by
  rcases ha : a.renewal_date with _ | da <;> rcases hb : b.renewal_date with _ | db <;>
    simp [cmpLe, renewalCmp, ha, hb]
  exact localeCompare_le_total da db

theorem cmpLe_renewal_trans (a b c : Account) :
    cmpLe renewalCmp a b → cmpLe renewalCmp b c → cmpLe renewalCmp a c := by
  rcases ha : a.renewal_date with _ | da <;> rcases hb : b.renewal_date with _ | db <;>
    rcases hc : c.renewal_date with _ | dc <;>
    simp [cmpLe, renewalCmp, ha, hb, hc]
  exact localeCompare_le_trans

theorem cmpLe_pipeline_total (a b : Account) :
    cmpLe pipelineCmp a b || cmpLe pipelineCmp b a := by
  simp [cmpLe, pipelineCmp]
  omega

theorem cmpLe_pipeline_trans (a b c : Account) :
    cmpLe pipelineCmp a b → cmpLe pipelineCmp b c → cmpLe pipelineCmp a c := by
  simp [cmpLe, pipelineCmp]
  omega

theorem sortKey_total (k : SortKey) (a b : Account) :
    cmpLe (sortComparator k) a b || cmpLe (sortComparator k) b a := by
  cases k
  · exact cmpLe_name_total a b
  · exact cmpLe_touched_total a b
  · exact cmpLe_tasks_total a b
  · exact cmpLe_renewal_total a b
  · exact cmpLe_pipeline_total a b

theorem sortKey_trans (k : SortKey) (a b c : Account) :
    cmpLe (sortComparator k) a b → cmpLe (sortComparator k) b c →
      cmpLe (sortComparator k) a c := by
  cases k
  · exact cmpLe_name_trans a b c
  · exact cmpLe_touched_trans a b c
  · exact cmpLe_tasks_trans a b c
  · exact cmpLe_renewal_trans a b c
  · exact cmpLe_pipeline_trans a b c

/-- Stability of a stable sort, filter form: the elements of a class
on which the relation holds in both directions come out of the sort in
exactly the order (and multiplicity) they went in. -/
theorem mergeSort_filter_tied {α : Type} (le : α → α → Bool)
    (htrans : ∀ (a b c : α), le a b → le b c → le a c)
    (htotal : ∀ (a b : α), le a b || le b a)
    (p : α → Bool)
    (hp : ∀ a b, p a = true → p b = true → le a b = true)
    (l : List α) :
    (l.mergeSort le).filter p = l.filter p := by
  have hpw : (l.filter p).Pairwise (fun a b => le a b = true) :=
    List.pairwise_of_forall_mem_list (fun a ha b hb =>
      hp a b (List.mem_filter.mp ha).2 (List.mem_filter.mp hb).2)
  have hsub : List.Sublist (l.filter p) (l.mergeSort le) :=
    List.sublist_mergeSort htrans htotal hpw (List.filter_sublist l)
  have h1 : List.Sublist (l.filter p) ((l.mergeSort le).filter p) := by
    have h2 := hsub.filter p
    simpa only [List.filter_filter, Bool.and_self] using h2
  have hlen : ((l.mergeSort le).filter p).length = (l.filter p).length :=
    ((l.mergeSort_perm le).filter p).length_eq
  exact (h1.eq_of_length hlen.symm).symm

/-- Idempotence of a stable sort whose relation is transitive and
total. -/
theorem mergeSort_idem {α : Type} (le : α → α → Bool)
    (htrans : ∀ (a b c : α), le a b → le b c → le a c)
    (htotal : ∀ (a b : α), le a b || le b a)
    (l : List α) :
    (l.mergeSort le).mergeSort le = l.mergeSort le :=
  List.mergeSort_of_sorted (List.sorted_mergeSort htrans htotal l)

theorem length_applySort (k : SortKey) (l : List Account) :
    (applySort k l).length = l.length :=
  List.length_mergeSort l

/-- C1: for every day-distance `d` to the renewal date, both the card
badge and the detail modal classify `d < 0` as overdue, `0..30` as
urgent, `31..60` as warning and `d > 60` as safe; in particular `-1`
is overdue, `0` and `30` urgent, `31` and `60` warning, `61` safe. -/
theorem C1_renewal_bands (d : Int) :
    ((d < 0 → cardRenewalClass d = .overdue ∧ detailRenewalClass d = .overdue) ∧
     (0 ≤ d → d ≤ 30 → cardRenewalClass d = .urgent ∧ detailRenewalClass d = .urgent) ∧
     (31 ≤ d → d ≤ 60 → cardRenewalClass d = .warning ∧ detailRenewalClass d = .warning) ∧
     (60 < d → cardRenewalClass d = .safe ∧ detailRenewalClass d = .safe)) ∧
    (cardRenewalClass (-1) = .overdue ∧ cardRenewalClass 0 = .urgent ∧
     cardRenewalClass 30 = .urgent ∧ cardRenewalClass 31 = .warning ∧
     cardRenewalClass 60 = .warning ∧ cardRenewalClass 61 = .safe ∧
     detailRenewalClass (-1) = .overdue ∧ detailRenewalClass 0 = .urgent ∧
     detailRenewalClass 30 = .urgent ∧ detailRenewalClass 31 = .warning ∧
     detailRenewalClass 60 = .warning ∧ detailRenewalClass 61 = .safe) := by
  constructor
  · refine ⟨fun h => ?_, fun h1 h2 => ?_, fun h1 h2 => ?_, fun h => ?_⟩ <;>
      constructor <;>
      (simp only [cardRenewalClass, detailRenewalClass]; split_ifs <;>
        first | rfl | omega)
  · decide

/-- Witness for C1 at the concrete distances named by the claim. -/
theorem C1_renewal_bands_witness :
    (cardRenewalClass (-1) = .overdue ∧ detailRenewalClass (-1) = .overdue) ∧
    (cardRenewalClass 0 = .urgent ∧ detailRenewalClass 0 = .urgent) ∧
    (cardRenewalClass 31 = .warning ∧ detailRenewalClass 31 = .warning) ∧
    (cardRenewalClass 61 = .safe ∧ detailRenewalClass 61 = .safe) :=
  ⟨(C1_renewal_bands (-1)).1.1 (by decide), (C1_renewal_bands 0).1.2.1 (by decide) (by decide),
   (C1_renewal_bands 31).1.2.2.1 (by decide) (by decide),
   (C1_renewal_bands 61).1.2.2.2 (by decide)⟩

/-- C3: the filter step is the identity for all, and for touched and
untouched keeps exactly the accounts whose touched flag matches,
preserving relative order (the result is a sublist of the input). -/
theorem C3_filter_step (l : List Account) (a : Account) :
    applyFilter .all l = l ∧
    List.Sublist (applyFilter .touched l) l ∧
    (a ∈ applyFilter .touched l ↔ a ∈ l ∧ a.touched_today = true) ∧
    List.Sublist (applyFilter .untouched l) l ∧
    (a ∈ applyFilter .untouched l ↔ a ∈ l ∧ a.touched_today = false) := by
  refine ⟨rfl, List.filter_sublist l, ?_, List.filter_sublist l, ?_⟩
  · simp [applyFilter, List.mem_filter]
  · simp [applyFilter, List.mem_filter]

/-- C7: daysSince is null exactly on a missing date, and otherwise
total: it returns the whole-day distance, which is 0 for today,
positive for a past date and negative (not an error) for a future
date.  Dates are midnight timestamps, so a date d days in the past is
86400000 times d milliseconds behind today. -/
theorem C7_daysSince (t d : Int) :
    daysSince none (86400000 * t) = none ∧
    daysSince (some (86400000 * d)) (86400000 * t) = some (t - d) ∧
    (d = t → daysSince (some (86400000 * d)) (86400000 * t) = some 0) ∧
    (d < t → ∃ n : Int, 0 < n ∧ daysSince (some (86400000 * d)) (86400000 * t) = some n) ∧
    (t < d → ∃ n : Int, n < 0 ∧ daysSince (some (86400000 * d)) (86400000 * t) = some n) := by
  have key : daysSince (some (86400000 * d)) (86400000 * t) = some (t - d) := by
    simp only [daysSince]
    rw [show (86400000 * t - 86400000 * d : Int) = 86400000 * (t - d) by ring]
    rw [Int.mul_fdiv_cancel_left _ (by norm_num)]
  refine ⟨rfl, key, ?_, ?_, ?_⟩
  · intro h; rw [key, h]; simp
  · intro h; exact ⟨t - d, by omega, key⟩
  · intro h; exact ⟨t - d, by omega, key⟩

/-- Witness for C7 at today = day 5 with dates on days 5, 3 and 7. -/
theorem C7_daysSince_witness :
    daysSince (some (86400000 * 5)) (86400000 * 5) = some 0 ∧
    (∃ n : Int, 0 < n ∧ daysSince (some (86400000 * 3)) (86400000 * 5) = some n) ∧
    (∃ n : Int, n < 0 ∧ daysSince (some (86400000 * 7)) (86400000 * 5) = some n) :=
  ⟨(C7_daysSince 5 5).2.2.1 rfl, (C7_daysSince 5 3).2.2.2.1 (by decide),
   (C7_daysSince 5 7).2.2.2.2 (by decide)⟩

/-- C10: the progress computation is total, 0 on the empty list (the
division is guarded), always between 0 and 100, and on a non-empty
list equals touched over total times 100 (stated multiplicatively). -/
theorem C10_updateProgress (l : List Account) :
    updateProgress [] = 0 ∧
    0 ≤ updateProgress l ∧ updateProgress l ≤ 100 ∧
    (l ≠ [] →
      updateProgress l * (l.length : ℚ) =
        100 * ((l.filter (fun a => a.touched_today)).length : ℚ)) := by
  have hT : (l.filter (fun a => a.touched_today)).length ≤ l.length :=
    List.length_filter_le _ _
  refine ⟨rfl, ?_, ?_, ?_⟩
  · unfold updateProgress
    split
    · positivity
    · norm_num
  · unfold updateProgress
    split
    · rename_i h
      have hN : (0:ℚ) < (l.length : ℚ) := by exact_mod_cast h
      rw [div_mul_eq_mul_div, div_le_iff₀ hN]
      have hTq : ((l.filter (fun a => a.touched_today)).length : ℚ) ≤ (l.length : ℚ) := by
        exact_mod_cast hT
      nlinarith
    · norm_num
  · intro hl
    have hN : 0 < l.length := List.length_pos.mpr hl
    unfold updateProgress
    rw [if_pos hN]
    have hNq : ((l.length : ℚ)) ≠ 0 := by
      exact_mod_cast Nat.pos_iff_ne_zero.mp hN
    field_simp
    ring

/-- Witness for C10 on a concrete two-account list with one touched. -/
theorem C10_updateProgress_witness :
    updateProgress
        [{ name := "a", touched_today := true, open_tasks := 0,
           renewal_date := none, pipeline_value := none },
         { name := "b", touched_today := false, open_tasks := 0,
           renewal_date := none, pipeline_value := none }] *
      ((2 : Nat) : ℚ) = 100 * ((1 : Nat) : ℚ) :=
  (C10_updateProgress _).2.2.2 (by decide)

/-- C2: the all-done terminal signal is shown exactly when the filter
is untouched, the filtered result is empty and the unfiltered account
list is non-empty (with the grid emptied); in every other case,
including an empty unfiltered list, the filtered and sorted cards are
rendered without the signal. -/
theorem C2_all_done_signal (f : AFilter) (k : SortKey) (st : List Account) :
    ((renderAccounts f k st).allDoneShown = true ↔
      f = .untouched ∧ applyFilter f st = [] ∧ st ≠ []) ∧
    (renderAccounts f k st).gridCards =
      (if (renderAccounts f k st).allDoneShown then []
       else applySort k (applyFilter f st)) := by
  unfold renderAccounts
  by_cases hcond :
      f = .untouched ∧ (applySort k (applyFilter f st)).length = 0 ∧ st.length > 0
  · rw [if_pos hcond]
    obtain ⟨hf, hlen, hpos⟩ := hcond
    rw [length_applySort] at hlen
    refine ⟨⟨fun _ => ⟨hf, List.length_eq_zero.mp hlen, ?_⟩, fun _ => rfl⟩, rfl⟩
    intro hnil
    rw [hnil] at hpos
    simp at hpos
  · rw [if_neg hcond]
    refine ⟨⟨fun hc => absurd hc (by simp), fun hc => absurd ?_ hcond⟩, by simp⟩
    obtain ⟨hf, hfe, hne⟩ := hc
    refine ⟨hf, ?_, ?_⟩
    · rw [hfe]
      simp [applySort]
    · have := List.length_pos.mpr hne
      omega

/-- Witness for C2: one touched account under the untouched filter
produces the all-done signal. -/
theorem C2_all_done_signal_witness :
    (renderAccounts .untouched .name
        [{ name := "a", touched_today := true, open_tasks := 0,
           renewal_date := none, pipeline_value := none }]).allDoneShown = true :=
  (C2_all_done_signal .untouched .name _).1.mpr ⟨rfl, by decide, by decide⟩

/-- C6: sorting by renewal is a permutation of the input in which any
account following another either has no renewal date, or both have
dates and they appear in ascending date order; in particular every
account without a renewal date comes after every account with one. -/
theorem C6_renewal_sort (l : List Account) :
    List.Perm (applySort .renewal l) l ∧
    (applySort .renewal l).Pairwise (fun a b =>
      b.renewal_date = none ∨
      ∃ da db, a.renewal_date = some da ∧ b.renewal_date = some db ∧
        localeCompare da db ≤ 0) := by
  constructor
  · exact List.mergeSort_perm l _
  · have hs := List.sorted_mergeSort (sortKey_trans .renewal) (sortKey_total .renewal) l
    refine List.Pairwise.imp ?_ hs
    intro a b hab
    simp only [sortComparator, cmpLe, decide_eq_true_eq] at hab
    rcases ha : a.renewal_date with _ | da <;> rcases hb : b.renewal_date with _ | db <;>
      simp only [renewalCmp, ha, hb] at hab
    · exact Or.inl rfl
    · exact absurd hab (by norm_num)
    · exact Or.inl rfl
    · exact Or.inr ⟨da, db, rfl, rfl, hab⟩

theorem sortKey_tie (k : SortKey) (x y a0 : Account)
    (hx : sortComparator k x a0 = 0) (hy : sortComparator k y a0 = 0) :
    cmpLe (sortComparator k) x y := by
  cases k
  · simp only [sortComparator, nameCmp, cmpLe, decide_eq_true_eq] at *
    rw [localeCompare_eq_zero_iff] at hx hy
    obtain ⟨hp1, hc1⟩ := localeCmp_eq_iff.mp hx
    obtain ⟨hp2, hc2⟩ := localeCmp_eq_iff.mp hy
    have hxy : localeCmp x.name y.name = .eq :=
      localeCmp_eq_iff.mpr ⟨hp1.trans hp2.symm, hc1.trans hc2.symm⟩
    simp [localeCompare, hxy]
  · cases hxa : x.touched_today <;> cases hya : y.touched_today <;>
      cases ha0 : a0.touched_today <;>
      simp_all [sortComparator, touchedCmp, cmpLe]
  · simp only [sortComparator, tasksCmp, cmpLe, decide_eq_true_eq] at *
    omega
  · rcases hxa : x.renewal_date with _ | dx <;> rcases hya : y.renewal_date with _ | dy <;>
      rcases ha0 : a0.renewal_date with _ | d0 <;>
      simp_all [sortComparator, renewalCmp, cmpLe]
    rw [localeCompare_eq_zero_iff] at hx hy
    obtain ⟨hp1, hc1⟩ := localeCmp_eq_iff.mp hx
    obtain ⟨hp2, hc2⟩ := localeCmp_eq_iff.mp hy
    have hxy : localeCmp dx dy = .eq :=
      localeCmp_eq_iff.mpr ⟨hp1.trans hp2.symm, hc1.trans hc2.symm⟩
    simp [localeCompare, hxy]
  · simp only [sortComparator, pipelineCmp, cmpLe, decide_eq_true_eq] at *
    omega

/-- C4: every sort key is stable on equal comparator keys: the
accounts whose comparator key agrees with a reference account come out
of the sort in exactly the order they went in; moreover sorting an
unchanged list by tasks twice yields the ordering of sorting it
once. -/
theorem C4_sort_stability (l : List Account) (a0 : Account) :
    (∀ k : SortKey,
      (applySort k l).filter (fun x => decide (sortComparator k x a0 = 0)) =
        l.filter (fun x => decide (sortComparator k x a0 = 0))) ∧
    applySort .tasks (applySort .tasks l) = applySort .tasks l := by
  constructor
  · intro k
    apply mergeSort_filter_tied (cmpLe (sortComparator k)) (sortKey_trans k)
      (sortKey_total k)
    intro a b ha hb
    exact sortKey_tie k a b a0 (of_decide_eq_true ha) (of_decide_eq_true hb)
  · exact mergeSort_idem (cmpLe tasksCmp) cmpLe_tasks_trans cmpLe_tasks_total l

theorem localeCompare_neg_iff {s t : String} :
    localeCompare s t < 0 ↔ localeCmp s t = .lt := by
  unfold localeCompare
  rcases localeCmp s t with _ | _ | _ <;> simp

/-- C5 counterexample: the name comparator is the bare
`localeCompare`, not a case-folding one, so the concrete names Apple
and apple differ only in letter case yet do not compare as equal
keys. -/
theorem C5_counterexample :
    primaryKey "Apple" = primaryKey "apple" ∧
    nameCmp
        { name := "Apple", touched_today := false, open_tasks := 0,
          renewal_date := none, pipeline_value := none }
        { name := "apple", touched_today := false, open_tasks := 0,
          renewal_date := none, pipeline_value := none } ≠ 0 := by
  constructor
  · decide
  · decide

/-- C5 amended: sorting by name orders accounts by locale comparison
of names: the result is a permutation sorted under the comparator;
names with distinct case-folded forms are ordered by those folded
forms, so the ordering of such names ignores case; but names that
differ only in case are not equal keys: on a primary (case-folded)
tie the comparator is zero exactly when the case patterns agree, and
otherwise breaks the tie lowercase-first. -/
theorem C5_name_sort (l : List Account) (s t : String) :
    List.Perm (applySort .name l) l ∧
    (applySort .name l).Pairwise (fun a b => localeCompare a.name b.name ≤ 0) ∧
    (primaryKey s ≠ primaryKey t →
      (localeCompare s t < 0 ↔ lexCmp (primaryKey s) (primaryKey t) = .lt)) ∧
    (primaryKey s = primaryKey t →
      (localeCompare s t = 0 ↔ caseKey s = caseKey t)) ∧
    (primaryKey s = primaryKey t →
      (localeCompare s t < 0 ↔ lexCmp (caseKey s) (caseKey t) = .lt)) := by
  refine ⟨List.mergeSort_perm l _, ?_, ?_, ?_, ?_⟩
  · have hs := List.sorted_mergeSort (sortKey_trans .name) (sortKey_total .name) l
    refine List.Pairwise.imp ?_ hs
    intro a b hab
    simpa only [sortComparator, nameCmp, cmpLe, decide_eq_true_eq] using hab
  · intro hp
    rw [localeCompare_neg_iff]
    unfold localeCmp
    rcases h : lexCmp (primaryKey s) (primaryKey t) with _ | _ | _
    · simp
    · exact absurd (lexCmp_eq_iff.mp h) hp
    · simp
  · intro hp
    rw [localeCompare_eq_zero_iff]
    unfold localeCmp
    rw [lexCmp_eq_iff.mpr hp]
    exact lexCmp_eq_iff
  · intro hp
    rw [localeCompare_neg_iff]
    unfold localeCmp
    rw [lexCmp_eq_iff.mpr hp]

/-- Witness for C5: the lowercase name apple sorts strictly before
Apple, because their case-folded forms agree and the case tiebreak
puts lowercase first. -/
theorem C5_name_sort_witness : localeCompare "apple" "Apple" < 0 :=
  ((C5_name_sort [] "apple" "Apple").2.2.2.2 (by decide)).mpr (by decide)

/-- C8 counterexample: a non-2xx response whose JSON body carries the
error string "" (an error string nonetheless) is not surfaced as
exactly that string: the falsy check in `error.error || 'Request
failed'` replaces it with the generic message. -/
theorem C8_counterexample :
    apiRequest { ok := false, parsedBody := some (some "") } () ≠
      (Except.error "" : Except String Unit) ∧
    apiRequest { ok := false, parsedBody := some (some "") } () =
      (Except.error "Request failed" : Except String Unit) := by
  have hmsg : apiRequest { ok := false, parsedBody := some (some "") } () =
      (Except.error "Request failed" : Except String Unit) := by
    simp [apiRequest, requestFailureMessage]
  refine ⟨?_, hmsg⟩
  rw [hmsg]
  intro hc
  exact absurd (Except.error.inj hc) (by decide)

/-- C8 amended: on a non-2xx response with a non-empty error string
the client raises exactly that string and the mutation handler shows
the transient toast Failed: plus the message; when the body is absent,
lacks the field, or carries the empty string, the generic message
Request failed is used instead. -/
theorem C8_error_propagation (e : String) (pb : Option (Option String)) :
    (e ≠ "" →
      apiRequest { ok := false, parsedBody := some (some e) } () =
        (Except.error e : Except String Unit) ∧
      mutationToast "Activity logged ✓"
          (apiRequest { ok := false, parsedBody := some (some e) } ()) =
        "Failed: " ++ e) ∧
    (pb = none ∨ pb = some none ∨ pb = some (some "") →
      mutationToast "Activity logged ✓"
          (apiRequest { ok := false, parsedBody := pb } ()) =
        "Failed: Request failed") := by
  constructor
  · intro he
    have hmsg : requestFailureMessage (some (some e)) = e := by
      simp [requestFailureMessage, he]
    constructor
    · simp [apiRequest, hmsg]
    · simp [apiRequest, mutationToast, hmsg]
  · rintro (rfl | rfl | rfl) <;> rfl

/-- Witness for C8 with the message boom and with a parse failure. -/
theorem C8_error_propagation_witness :
    (apiRequest { ok := false, parsedBody := some (some "boom") } () =
        (Except.error "boom" : Except String Unit) ∧
      mutationToast "Activity logged ✓"
          (apiRequest { ok := false, parsedBody := some (some "boom") } ()) =
        "Failed: boom") ∧
    mutationToast "Activity logged ✓"
        (apiRequest { ok := false, parsedBody := none } ()) =
      "Failed: Request failed" :=
  ⟨(C8_error_propagation "boom" none).1 (by decide),
   (C8_error_propagation "boom" none).2 (Or.inl rfl)⟩

theorem Heap.readArr_alloc_lt (h : Heap) (v : List Account) (r : Nat)
    (hr : r < h.arrays.length) :
    (h.alloc v).1.readArr r = h.readArr r := by
  simp [Heap.alloc, Heap.readArr, List.getElem?_append_left hr]

theorem Heap.readArr_write_ne (h : Heap) (w r : Nat) (v : List Account)
    (hne : w ≠ r) :
    (h.writeArr w v).readArr r = h.readArr r := by
  simp [Heap.writeArr, Heap.readArr, List.getElem?_set_ne hne]

theorem Heap.alloc_arrays_length (h : Heap) (v : List Account) :
    (h.alloc v).1.arrays.length = h.arrays.length + 1 := by
  simp [Heap.alloc]

theorem Heap.alloc_write_readArr (h : Heap) (v w : List Account) (r : Nat)
    (hr : r < h.arrays.length) :
    (((h.alloc v).1).writeArr ((h.alloc v).2) w).readArr r = h.readArr r := by
  rw [Heap.readArr_write_ne _ _ _ _ (by simp only [Heap.alloc]; omega)]
  exact Heap.readArr_alloc_lt h v r hr

/-- C9: rendering never mutates the stored account list.  The spread
copy and the fresh array returned by filter mean the in-place sort
writes only to a freshly allocated reference, so the array
`State.accounts` points to is unchanged by `renderAccountsHeap`. -/
theorem C9_no_mutation (h : Heap) (stRef : Nat) (f : AFilter) (k : SortKey)
    (hRef : stRef < h.arrays.length) :
    ((renderAccountsHeap h stRef f k).1).readArr stRef = h.readArr stRef := by
  have h2 : stRef < (h.alloc (h.readArr stRef)).1.arrays.length := by
    rw [Heap.alloc_arrays_length]
    omega
  unfold renderAccountsHeap
  cases f
  · exact Heap.alloc_write_readArr h _ _ stRef hRef
  · show (Heap.readArr _ _) = _
    rw [Heap.alloc_write_readArr _ _ _ stRef h2]
    exact Heap.readArr_alloc_lt h _ stRef hRef
  · show (Heap.readArr _ _) = _
    rw [Heap.alloc_write_readArr _ _ _ stRef h2]
    exact Heap.readArr_alloc_lt h _ stRef hRef

/-- Witness for C9 on a one-array heap holding one account. -/
theorem C9_no_mutation_witness :
    ((renderAccountsHeap
        { arrays := [[{ name := "a", touched_today := false, open_tasks := 0,
                        renewal_date := none, pipeline_value := none }]] }
        0 .all .name).1).readArr 0 =
      Heap.readArr
        { arrays := [[{ name := "a", touched_today := false, open_tasks := 0,
                        renewal_date := none, pipeline_value := none }]] }
        0 :=
  C9_no_mutation _ 0 .all .name (by decide)

end AccountTracker
